import Mathlib

/-!
# Stockfish material evaluator (`src/evaluate.cpp`)

A shallow embedding of `Evaluation::value`, `Eval::evaluate` and `Eval::trace`.

Modelling conventions.

* `Position` is declared in `position.h`, which is not part of the sources at hand.  It is
  modelled as a record holding what `evaluate.cpp` reads from it (piece counts, side to move,
  the checkers bitboard, the node counter of the owning thread) together with the piece
  placement, which `evaluate.cpp` never reads.
* `int` piece counts are mathematical integers: on a board of 64 squares no sum in
  `Evaluation::value` leaves the range of `int`.
* `double` is read as exact rational arithmetic, the literal `2.9` being `29 / 10`.  The
  reading is exact whenever the knight counts of the two sides are equal, the sum being an
  integer then.  A statement that fixes the value of a fractional material term is made at the
  unit of the engine, `PawnValueEg = 208`, and not for an arbitrary unit.
* `Value` is a 32-bit signed enum.  It is modelled as `Int`; the conversion from the unsigned
  64-bit noise expression reduces modulo `2 ^ 32` into the signed range explicitly, the
  conversion from `double` truncates toward zero.
* `PawnValueEg` is declared in `types.h` and is a parameter of the embedding; the engine is
  compiled with the value 208.
* A failing `assert` is the result `none`.
-/

namespace Stockfish

/-- The two sides, as in `types.h`. -/
inductive Color where
  | WHITE
  | BLACK
  deriving DecidableEq, Repr

/-- Piece types, as in `types.h`. -/
inductive PieceType where
  | NO_PIECE_TYPE
  | PAWN
  | KNIGHT
  | BISHOP
  | ROOK
  | QUEEN
  | KING
  deriving DecidableEq, Repr

/-- Scores are values of the 32-bit signed enum `Value`. -/
abbrev Value := Int

/-- A `Bitboard` is an unsigned 64-bit set of squares. -/
abbrev Bitboard := Nat

/-- Arithmetic on `double`, read exactly. -/
abbrev Double := ℚ

/-- Modelled from the spec: the `Position` class of `position.h`, reduced to the read-only
surface the evaluator consumes (`count<Pt>(c)`, `side_to_move()`, `checkers()`,
`this_thread()->nodes`) plus the piece placement `board`, which the evaluator ignores. -/
structure Position where
  /-- The result of `count<Pt>(c)`. -/
  count : PieceType → Color → Int
  /-- The result of `side_to_move()`. -/
  side_to_move : Color
  /-- The result of `checkers()`: the pieces giving check to the side to move. -/
  checkers : Bitboard
  /-- The result of `this_thread()->nodes`, an unsigned 64-bit counter. -/
  nodes : Nat
  /-- The piece code standing on each of the 64 squares. -/
  board : List Nat

/-- Conversion of an unsigned 64-bit integer to the 32-bit signed `Value`. -/
def toValue (u : Nat) : Value :=
  if u % 2 ^ 32 < 2 ^ 31 then ((u % 2 ^ 32 : Nat) : Int) else ((u % 2 ^ 32 : Nat) : Int) - 2 ^ 32

/-- Conversion of a `double` to `Value`: the fractional part is discarded. -/
def truncValue (x : Double) : Value :=
  Int.tdiv x.num (x.den : Int)

/-- The expression `Value(2 * (pos.this_thread()->nodes & 14) - 14)`, computed in unsigned
64-bit arithmetic and then converted. -/
def noise (nodes : Nat) : Value :=
  toValue ((2 * (nodes % 2 ^ 64 &&& 14) + (2 ^ 64 - 14)) % 2 ^ 64)

open Color PieceType in
/-- The sum that initialises `vv` in `Evaluation::value`: the first two summands are `int`
expressions, the knight term is the first `double`, and each later `int` product is converted
as it is added. -/
def material (pos : Position) : Double :=
  (((pos.count PAWN WHITE - pos.count PAWN BLACK * 1
      + (pos.count BISHOP WHITE - pos.count BISHOP BLACK) * 3 : Int) : Double)
    + ((pos.count KNIGHT WHITE - pos.count KNIGHT BLACK : Int) : Double) * (29 / 10)
    + (((pos.count ROOK WHITE - pos.count ROOK BLACK) * 5 : Int) : Double)
    + (((pos.count QUEEN WHITE - pos.count QUEEN BLACK) * 9 : Int) : Double))

/-- The function `Evaluation::value()`. -/
def Evaluation.value (PawnValueEg : Value) (pos : Position) : Option Value :=
  if pos.checkers ≠ 0 then none
  else
    let vv : Double := material pos
    let vv : Double := vv * (PawnValueEg : Double)
    let vv : Double := vv + ((noise pos.nodes : Value) : Double)
    some (truncValue (if pos.side_to_move = Color.WHITE then vv else -vv))

/-- The function `Eval::evaluate(pos)`. -/
def Eval.evaluate (PawnValueEg : Value) (pos : Position) : Option Value :=
  Evaluation.value PawnValueEg pos

/-- The function `Eval::trace(pos)`; `fmt` is the stream insertion of a `double`. -/
def Eval.trace (fmt : Double → String) (PawnValueEg : Value) (pos : Position) : Option String :=
  if pos.checkers ≠ 0 then some "Total evaluation: none (in check)"
  else
    (Evaluation.value PawnValueEg pos).map fun v =>
      let v : Value := if pos.side_to_move = Color.WHITE then v else -v
      "Final evaluation: " ++ fmt ((v : Double) / (PawnValueEg : Double)) ++ " (white side)\n"


/-- Ten times the material sum of `Evaluation::value`, which is an integer. -/
def material10 (pos : Position) : Int :=
  10 * (pos.count PieceType.PAWN Color.WHITE - pos.count PieceType.PAWN Color.BLACK)
    + 30 * (pos.count PieceType.BISHOP Color.WHITE - pos.count PieceType.BISHOP Color.BLACK)
    + 29 * (pos.count PieceType.KNIGHT Color.WHITE - pos.count PieceType.KNIGHT Color.BLACK)
    + 50 * (pos.count PieceType.ROOK Color.WHITE - pos.count PieceType.ROOK Color.BLACK)
    + 90 * (pos.count PieceType.QUEEN Color.WHITE - pos.count PieceType.QUEEN Color.BLACK)

/-- The material balance `m` in the words of the specification: the weighted sum of the
per-colour count differences with weights 1, 3, 29/10, 5 and 9; the king has no term. -/
def specMaterial (pos : Position) : ℚ :=
  ((pos.count PieceType.PAWN Color.WHITE - pos.count PieceType.PAWN Color.BLACK : Int) : ℚ) * 1
    + ((pos.count PieceType.BISHOP Color.WHITE - pos.count PieceType.BISHOP Color.BLACK : Int) : ℚ) * 3
    + ((pos.count PieceType.KNIGHT Color.WHITE - pos.count PieceType.KNIGHT Color.BLACK : Int) : ℚ)
        * (29 / 10)
    + ((pos.count PieceType.ROOK Color.WHITE - pos.count PieceType.ROOK Color.BLACK : Int) : ℚ) * 5
    + ((pos.count PieceType.QUEEN Color.WHITE - pos.count PieceType.QUEEN Color.BLACK : Int) : ℚ) * 9

/-- The noise term in the words of the specification, over the mathematical integers. -/
def specNoise (c : Nat) : Int :=
  2 * ((c &&& 14 : Nat) : Int) - 14

/-- Piece counts of one side: pawns, knights, bishops, rooks, queens and one king. -/
def sideCounts (p n b r q : Int) : PieceType → Int
  | PieceType.PAWN => p
  | PieceType.KNIGHT => n
  | PieceType.BISHOP => b
  | PieceType.ROOK => r
  | PieceType.QUEEN => q
  | PieceType.KING => 1
  | PieceType.NO_PIECE_TYPE => 0

/-- A position given by the counts of both sides, with an empty placement list. -/
def positionOf (w b : PieceType → Int) (stm : Color) (checkers : Bitboard) (nodes : Nat) :
    Position where
  count := fun pt c => match c with
    | Color.WHITE => w pt
    | Color.BLACK => b pt
  side_to_move := stm
  checkers := checkers
  nodes := nodes
  board := []

/-- The material of the chess starting position: 8 pawns, 2 knights, 2 bishops, 2 rooks and a
queen on each side, White to move, not in check. -/
def startPosition (nodes : Nat) : Position :=
  positionOf (sideCounts 8 2 2 2 1) (sideCounts 8 2 2 2 1) Color.WHITE 0 nodes

/-- Three white pawns against a black knight: the smallest positive imbalance, 1/10. -/
def pawnsForKnight (stm : Color) (nodes : Nat) : Position :=
  positionOf (sideCounts 3 0 0 0 0) (sideCounts 0 1 0 0 0) stm 0 nodes

/-- Equal material except for one more white queen. -/
def extraQueen (stm : Color) (nodes : Nat) : Position :=
  positionOf (sideCounts 8 2 2 2 2) (sideCounts 8 2 2 2 1) stm 0 nodes

/-- The starting material with the king counts, the placement list, bit 0 and the bits from 4
upward of the node counter changed. -/
def startPositionVariant : Position where
  count := fun pt c => if pt = PieceType.KING then 3 else (startPosition 3).count pt c
  side_to_move := Color.WHITE
  checkers := 0
  nodes := 50
  board := [6, 0, 0, 14]

/-- The starting material with White to move and in check from the piece on square 12. -/
def checkedPosition : Position :=
  positionOf (sideCounts 8 2 2 2 1) (sideCounts 8 2 2 2 1) Color.WHITE (2 ^ 12) 7

/-- The unsigned 64-bit value of `2 * (nodes & 14) - 14` before its conversion to `Value`:
the subtraction wraps modulo `2 ^ 64`. -/
def noiseUnsigned (nodes : Nat) : Nat :=
  (2 * (nodes % 2 ^ 64 &&& 14) + (2 ^ 64 - 14)) % 2 ^ 64

/-- The body of `Eval::trace` with the callee `Evaluation(pos).value()` taken as an argument,
so that the places where `trace` calls it can be told apart from the rest. -/
def Eval.traceWith (value : Position → Option Value) (fmt : Double → String)
    (PawnValueEg : Value) (pos : Position) : Option String :=
  if pos.checkers ≠ 0 then some "Total evaluation: none (in check)"
  else
    (value pos).map fun v =>
      let v : Value := if pos.side_to_move = Color.WHITE then v else -v
      "Final evaluation: " ++ fmt ((v : Double) / (PawnValueEg : Double)) ++ " (white side)\n"

/-- The other colour. -/
def Color.opposite : Color → Color
  | Color.WHITE => Color.BLACK
  | Color.BLACK => Color.WHITE

/-- The colour mirror of a position: the counts of the two colours exchanged and the side to
move exchanged, everything else kept. -/
def mirror (pos : Position) : Position :=
  { pos with
    count := fun pt c => pos.count pt c.opposite
    side_to_move := pos.side_to_move.opposite }

theorem land_14_eq_mod (c : Nat) : c &&& 14 = c % 16 &&& 14 := by
  have h : c % 16 = c &&& 15 := (Nat.and_pow_two_sub_one_eq_mod c 4).symm
  rw [h, Nat.land_assoc]
  rfl

theorem land_14_mem (c : Nat) : c &&& 14 ∈ [0, 2, 4, 6, 8, 10, 12, 14] := by
  rw [land_14_eq_mod]
  have h : c % 16 < 16 := Nat.mod_lt _ (by decide)
  generalize c % 16 = r at h
  interval_cases r <;> decide

theorem noise_eq (c : Nat) : noise c = 2 * ((c &&& 14 : Nat) : Int) - 14 := by
  have hm : c % 2 ^ 64 &&& 14 = c &&& 14 := by
    rw [land_14_eq_mod (c % 2 ^ 64), land_14_eq_mod c]
    congr 1
    exact Nat.mod_mod_of_dvd c (by decide)
  unfold noise
  rw [hm]
  have h := land_14_mem c
  generalize c &&& 14 = k at h
  simp only [List.mem_cons, List.mem_singleton, List.not_mem_nil, or_false] at h
  rcases h with h | h | h | h | h | h | h | h <;> subst h <;> decide

theorem noise_mem (c : Nat) : noise c ∈ [-14, -10, -6, -2, 2, 6, 10, 14] := by
  rw [noise_eq]
  have h := land_14_mem c
  generalize c &&& 14 = k at h
  simp only [List.mem_cons, List.mem_singleton, List.not_mem_nil, or_false] at h
  rcases h with h | h | h | h | h | h | h | h <;> subst h <;> decide

theorem noise_bounds (c : Nat) : -14 ≤ noise c ∧ noise c ≤ 14 := by
  have h := noise_mem c
  generalize noise c = n at h
  simp only [List.mem_cons, List.mem_singleton, List.not_mem_nil, or_false] at h
  rcases h with h | h | h | h | h | h | h | h <;> subst h <;> decide

/-! ## Truncation toward zero -/

theorem truncValue_neg (x : ℚ) : truncValue (-x) = -truncValue x := by
  unfold truncValue
  rw [Rat.neg_num, Rat.neg_den, Int.neg_tdiv]

theorem truncValue_of_nonneg {x : ℚ} (h : 0 ≤ x) : truncValue x = ⌊x⌋ := by
  unfold truncValue
  rw [Rat.floor_def, Int.tdiv_eq_ediv (Rat.num_nonneg.mpr h) (Int.natCast_nonneg _)]

theorem truncValue_of_nonpos {x : ℚ} (h : x ≤ 0) : truncValue x = ⌈x⌉ := by
  have h1 : truncValue x = -truncValue (-x) := by rw [truncValue_neg, neg_neg]
  rw [h1, truncValue_of_nonneg (neg_nonneg.mpr h), Int.floor_neg, neg_neg]

theorem truncValue_intCast (n : Int) : truncValue (n : ℚ) = n := by
  unfold truncValue
  simp

theorem truncValue_pos {x : ℚ} (h : 1 ≤ x) : 0 < truncValue x := by
  rw [truncValue_of_nonneg (le_trans zero_le_one h)]
  have h1 : (1 : Int) ≤ ⌊x⌋ := Int.le_floor.mpr (by simpa using h)
  exact lt_of_lt_of_le Int.zero_lt_one h1

theorem truncValue_neg_of_le {x : ℚ} (h : x ≤ -1) : truncValue x < 0 := by
  have h1 : 0 < truncValue (-x) := truncValue_pos (by linarith)
  rw [truncValue_neg] at h1
  exact Int.neg_pos.mp h1

/-! ## The material sum -/

theorem material_eq (pos : Position) : material pos = (material10 pos : ℚ) / 10 := by
  unfold material material10
  push_cast
  ring

/-! ## Unfolding the evaluator -/

theorem material_eq_specMaterial (pos : Position) : material pos = specMaterial pos := by
  unfold material specMaterial
  push_cast
  ring

theorem specMaterial_eq (pos : Position) : specMaterial pos = (material10 pos : ℚ) / 10 := by
  rw [← material_eq_specMaterial, material_eq]

theorem value_of_not_checked (PawnValueEg : Value) (pos : Position) (hc : pos.checkers = 0) :
    Evaluation.value PawnValueEg pos
      = some (truncValue (if pos.side_to_move = Color.WHITE
          then material pos * (PawnValueEg : ℚ) + ((noise pos.nodes : Int) : ℚ)
          else -(material pos * (PawnValueEg : ℚ) + ((noise pos.nodes : Int) : ℚ)))) := by
  unfold Evaluation.value
  simp [hc]

theorem evaluate_white (PawnValueEg : Value) (pos : Position) (hc : pos.checkers = 0)
    (hw : pos.side_to_move = Color.WHITE) :
    Eval.evaluate PawnValueEg pos
      = some (truncValue (specMaterial pos * (PawnValueEg : ℚ) + ((specNoise pos.nodes : Int) : ℚ))) := by
  unfold Eval.evaluate
  rw [value_of_not_checked PawnValueEg pos hc, if_pos hw, material_eq_specMaterial, noise_eq]
  rfl

theorem evaluate_black (PawnValueEg : Value) (pos : Position) (hc : pos.checkers = 0)
    (hb : pos.side_to_move = Color.BLACK) :
    Eval.evaluate PawnValueEg pos
      = some (-truncValue (specMaterial pos * (PawnValueEg : ℚ) + ((specNoise pos.nodes : Int) : ℚ))) := by
  have hw : ¬ pos.side_to_move = Color.WHITE := by rw [hb]; decide
  unfold Eval.evaluate
  rw [value_of_not_checked PawnValueEg pos hc, if_neg hw, material_eq_specMaterial, noise_eq,
    truncValue_neg]
  rfl

theorem side_to_move_cases (pos : Position) :
    pos.side_to_move = Color.WHITE ∨ pos.side_to_move = Color.BLACK := by
  cases pos.side_to_move
  · exact Or.inl rfl
  · exact Or.inr rfl

/-! ## Size of the scaled material term -/

theorem scaled_material_ge (pos : Position) (PawnValueEg b : Int) (hb : 0 ≤ b)
    (hP : 10 * b ≤ PawnValueEg) (hK : 1 ≤ material10 pos) :
    (b : ℚ) ≤ specMaterial pos * (PawnValueEg : ℚ) := by
  have h1 : 10 * b ≤ material10 pos * PawnValueEg := by nlinarith
  have h2 : ((10 * b : Int) : ℚ) ≤ ((material10 pos * PawnValueEg : Int) : ℚ) := by
    exact_mod_cast h1
  push_cast at h2
  rw [specMaterial_eq]
  linarith

theorem scaled_material_le (pos : Position) (PawnValueEg b : Int) (hb : 0 ≤ b)
    (hP : 10 * b ≤ PawnValueEg) (hK : material10 pos ≤ -1) :
    specMaterial pos * (PawnValueEg : ℚ) ≤ -(b : ℚ) := by
  have h1 : material10 pos * PawnValueEg ≤ -(10 * b) := by nlinarith
  have h2 : ((material10 pos * PawnValueEg : Int) : ℚ) ≤ ((-(10 * b) : Int) : ℚ) := by
    exact_mod_cast h1
  push_cast at h2
  rw [specMaterial_eq]
  linarith

theorem specMaterial_pos_iff (pos : Position) : 0 < specMaterial pos ↔ 1 ≤ material10 pos := by
  rw [specMaterial_eq]
  constructor
  · intro h
    have h1 : (0 : ℚ) < (material10 pos : ℚ) := by linarith
    have h2 : 0 < material10 pos := by exact_mod_cast h1
    omega
  · intro h
    have h1 : (1 : ℚ) ≤ (material10 pos : ℚ) := by exact_mod_cast h
    linarith

theorem specMaterial_neg_iff (pos : Position) : specMaterial pos < 0 ↔ material10 pos ≤ -1 := by
  rw [specMaterial_eq]
  constructor
  · intro h
    have h1 : (material10 pos : ℚ) < 0 := by linarith
    have h2 : material10 pos < 0 := by exact_mod_cast h1
    omega
  · intro h
    have h1 : (material10 pos : ℚ) ≤ -1 := by exact_mod_cast h
    linarith

theorem specNoise_bounds (c : Nat) : -14 ≤ specNoise c ∧ specNoise c ≤ 14 := by
  have h := noise_bounds c
  rw [noise_eq] at h
  exact h

theorem specNoise_mem (c : Nat) : specNoise c ∈ [-14, -10, -6, -2, 2, 6, 10, 14] := by
  have h := noise_mem c
  rw [noise_eq] at h
  exact h

theorem specNoise_of_mod_16 (c : Nat) (h : c % 16 = 0) : specNoise c = -14 := by
  unfold specNoise
  rw [land_14_eq_mod, h]
  decide

theorem specMaterial_congr (p1 p2 : Position)
    (h : ∀ pt ∈ [PieceType.PAWN, PieceType.KNIGHT, PieceType.BISHOP, PieceType.ROOK,
      PieceType.QUEEN], ∀ c : Color, p1.count pt c = p2.count pt c) :
    specMaterial p1 = specMaterial p2 := by
  unfold specMaterial
  rw [h PieceType.PAWN (by simp), h PieceType.PAWN (by simp), h PieceType.KNIGHT (by simp),
    h PieceType.KNIGHT (by simp), h PieceType.BISHOP (by simp), h PieceType.BISHOP (by simp),
    h PieceType.ROOK (by simp), h PieceType.ROOK (by simp), h PieceType.QUEEN (by simp),
    h PieceType.QUEEN (by simp)]

theorem specMaterial_extra_queen (pos : Position)
    (hp : pos.count PieceType.PAWN Color.WHITE = pos.count PieceType.PAWN Color.BLACK)
    (hn : pos.count PieceType.KNIGHT Color.WHITE = pos.count PieceType.KNIGHT Color.BLACK)
    (hb : pos.count PieceType.BISHOP Color.WHITE = pos.count PieceType.BISHOP Color.BLACK)
    (hr : pos.count PieceType.ROOK Color.WHITE = pos.count PieceType.ROOK Color.BLACK)
    (hq : pos.count PieceType.QUEEN Color.WHITE = pos.count PieceType.QUEEN Color.BLACK + 1) :
    specMaterial pos = 9 := by
  unfold specMaterial
  rw [hp, hn, hb, hr, hq]
  push_cast
  ring

theorem specMaterial_balanced (pos : Position)
    (hp : pos.count PieceType.PAWN Color.WHITE = pos.count PieceType.PAWN Color.BLACK)
    (hn : pos.count PieceType.KNIGHT Color.WHITE = pos.count PieceType.KNIGHT Color.BLACK)
    (hb : pos.count PieceType.BISHOP Color.WHITE = pos.count PieceType.BISHOP Color.BLACK)
    (hr : pos.count PieceType.ROOK Color.WHITE = pos.count PieceType.ROOK Color.BLACK)
    (hq : pos.count PieceType.QUEEN Color.WHITE = pos.count PieceType.QUEEN Color.BLACK) :
    specMaterial pos = 0 := by
  unfold specMaterial
  rw [hp, hn, hb, hr, hq]
  push_cast
  ring

theorem truncValue_extra_queen (PawnValueEg : Int) :
    truncValue ((9 : ℚ) * (PawnValueEg : ℚ) + (((-14 : Int) : Int) : ℚ)) = 9 * PawnValueEg - 14 := by
  have h : (9 : ℚ) * (PawnValueEg : ℚ) + (((-14 : Int) : Int) : ℚ)
      = ((9 * PawnValueEg - 14 : Int) : ℚ) := by
    push_cast
    ring
  rw [h, truncValue_intCast]

theorem truncValue_balanced (PawnValueEg n : Int) :
    truncValue ((0 : ℚ) * (PawnValueEg : ℚ) + (n : ℚ)) = n := by
  have h : (0 : ℚ) * (PawnValueEg : ℚ) + (n : ℚ) = (n : ℚ) := by ring
  rw [h, truncValue_intCast]

/-! ## The conversion to `Value` stays in range on a board -/

theorem truncValue_le_of_le {x : ℚ} {B : Int} (h : x ≤ (B : ℚ)) :
    truncValue x ≤ B := by
  rcases le_total 0 x with hx | hx
  · rw [truncValue_of_nonneg hx]
    have h1 : ((⌊x⌋ : Int) : ℚ) ≤ (B : ℚ) := le_trans (Int.floor_le x) h
    exact_mod_cast h1
  · rw [truncValue_of_nonpos hx]
    exact Int.ceil_le.mpr h

theorem truncValue_ge_of_ge {x : ℚ} {B : Int} (h : -(B : ℚ) ≤ x) :
    -B ≤ truncValue x := by
  have h1 : truncValue (-x) ≤ B := truncValue_le_of_le (by linarith)
  rw [truncValue_neg] at h1
  exact Int.neg_le_of_neg_le h1

/-- With the engine unit 208 and every count between 0 and 64, the number converted by
`Evaluation::value` lies within the 32-bit range of `Value`. -/
theorem evaluate_in_range (pos : Position) (hc : pos.checkers = 0)
    (hcount : ∀ pt c, 0 ≤ pos.count pt c ∧ pos.count pt c ≤ 64) :
    ∃ v : Value, Eval.evaluate 208 pos = some v ∧ -(2 : Int) ^ 31 ≤ v ∧ v < (2 : Int) ^ 31 := by
  have hK : -13376 ≤ material10 pos ∧ material10 pos ≤ 13376 := by
    unfold material10
    have h1 := hcount PieceType.PAWN Color.WHITE
    have h2 := hcount PieceType.PAWN Color.BLACK
    have h3 := hcount PieceType.BISHOP Color.WHITE
    have h4 := hcount PieceType.BISHOP Color.BLACK
    have h5 := hcount PieceType.KNIGHT Color.WHITE
    have h6 := hcount PieceType.KNIGHT Color.BLACK
    have h7 := hcount PieceType.ROOK Color.WHITE
    have h8 := hcount PieceType.ROOK Color.BLACK
    have h9 := hcount PieceType.QUEEN Color.WHITE
    have h10 := hcount PieceType.QUEEN Color.BLACK
    constructor <;> omega
  have hK1 : (-13376 : ℚ) ≤ (material10 pos : ℚ) := by exact_mod_cast hK.1
  have hK2 : (material10 pos : ℚ) ≤ 13376 := by exact_mod_cast hK.2
  have hbd := specNoise_bounds pos.nodes
  have hn1 : (-14 : ℚ) ≤ ((specNoise pos.nodes : Int) : ℚ) := by exact_mod_cast hbd.1
  have hn2 : ((specNoise pos.nodes : Int) : ℚ) ≤ 14 := by exact_mod_cast hbd.2
  have hx : -((278235 : Int) : ℚ)
        ≤ specMaterial pos * ((208 : Int) : ℚ) + ((specNoise pos.nodes : Int) : ℚ)
      ∧ specMaterial pos * ((208 : Int) : ℚ) + ((specNoise pos.nodes : Int) : ℚ)
        ≤ ((278235 : Int) : ℚ) := by
    rw [specMaterial_eq]
    push_cast
    constructor <;> linarith
  have hlo := truncValue_ge_of_ge hx.1
  have hhi := truncValue_le_of_le hx.2
  have hlo2 : -(2 : Int) ^ 31 ≤ -278235 := by decide
  have hhi2 : (278235 : Int) < (2 : Int) ^ 31 := by decide
  rcases side_to_move_cases pos with hw | hs
  · exact ⟨_, evaluate_white 208 pos hc hw, le_trans hlo2 hlo, lt_of_le_of_lt hhi hhi2⟩
  · refine ⟨_, evaluate_black 208 pos hc hs, ?_, ?_⟩
    · exact le_trans hlo2 (Int.neg_le_neg hhi)
    · exact lt_of_le_of_lt (Int.neg_le_of_neg_le hlo) hhi2

/-! ## Sample evaluations

With a unit of 1 the material term of three pawns against a knight is 1/10 and truncates to 0,
while adding the noise -14 first and truncating afterwards gives -13.  The engine unit 208
keeps every non-zero material term at a distance of more than 14 from zero. -/

theorem evaluate_unit_one_sample :
    Eval.evaluate 1 (pawnsForKnight Color.WHITE 0) = some (-13)
      ∧ truncValue (specMaterial (pawnsForKnight Color.WHITE 0) * ((1 : Value) : ℚ)) = 0 := by
  constructor <;> with_unfolding_all rfl

theorem evaluate_engine_unit_sample :
    Eval.evaluate 208 (pawnsForKnight Color.WHITE 0) = some 6
      ∧ Eval.evaluate 208 (pawnsForKnight Color.BLACK 15) = some (-34)
      ∧ Eval.evaluate 208 (extraQueen Color.BLACK 16) = some (-1858) := by
  refine ⟨?_, ?_, ?_⟩ <;> with_unfolding_all rfl

/-! ## The unsigned noise expression -/

theorem noise_eq_toValue (c : Nat) : noise c = toValue (noiseUnsigned c) := rfl

theorem noiseUnsigned_cases (c : Nat) :
    (c &&& 14 < 7 → noiseUnsigned c = 2 ^ 64 - 14 + 2 * (c &&& 14))
      ∧ (7 ≤ c &&& 14 → noiseUnsigned c = 2 * (c &&& 14) - 14) := by
  have hm : c % 2 ^ 64 &&& 14 = c &&& 14 := by
    rw [land_14_eq_mod (c % 2 ^ 64), land_14_eq_mod c]
    congr 1
    exact Nat.mod_mod_of_dvd c (by decide)
  unfold noiseUnsigned
  rw [hm]
  have h := land_14_mem c
  generalize c &&& 14 = k at h
  simp only [List.mem_cons, List.mem_singleton, List.not_mem_nil, or_false] at h
  rcases h with h | h | h | h | h | h | h | h <;> subst h <;> decide

/-! ## Strict monotonicity of the truncation across a gap of two -/

theorem specMaterial_mirror (pos : Position) : specMaterial (mirror pos) = -specMaterial pos := by
  simp only [specMaterial, mirror, Color.opposite]
  push_cast
  ring

theorem specMaterial_int_of_equal_knights (pos : Position)
    (hn : pos.count PieceType.KNIGHT Color.WHITE = pos.count PieceType.KNIGHT Color.BLACK) :
    ∃ M : Int, specMaterial pos = (M : ℚ) := by
  refine ⟨(pos.count PieceType.PAWN Color.WHITE - pos.count PieceType.PAWN Color.BLACK)
    + (pos.count PieceType.BISHOP Color.WHITE - pos.count PieceType.BISHOP Color.BLACK) * 3
    + (pos.count PieceType.ROOK Color.WHITE - pos.count PieceType.ROOK Color.BLACK) * 5
    + (pos.count PieceType.QUEEN Color.WHITE - pos.count PieceType.QUEEN Color.BLACK) * 9, ?_⟩
  unfold specMaterial
  rw [hn]
  push_cast
  ring

theorem truncValue_int_combination (M P n : Int) :
    truncValue ((M : ℚ) * (P : ℚ) + (n : ℚ)) = M * P + n
      ∧ truncValue (-(M : ℚ) * (P : ℚ) + (n : ℚ)) = -(M * P) + n := by
  have h1 : (M : ℚ) * (P : ℚ) + (n : ℚ) = ((M * P + n : Int) : ℚ) := by push_cast; ring
  have h2 : -(M : ℚ) * (P : ℚ) + (n : ℚ) = ((-(M * P) + n : Int) : ℚ) := by push_cast; ring
  rw [h1, h2, truncValue_intCast, truncValue_intCast]
  exact ⟨rfl, rfl⟩

theorem twice_abs_specNoise_mem (n : Int) (hn : n ∈ [-14, -10, -6, -2, 2, 6, 10, (14 : Int)]) :
    2 * |n| ∈ [4, 12, 20, (28 : Int)] ∧ n ≠ 0 := by
  simp only [List.mem_cons, List.mem_singleton, List.not_mem_nil, or_false] at hn
  rcases hn with h | h | h | h | h | h | h | h <;> subst h <;> decide

/-! ## Distance of a fractional material term from the multiples of the unit 208 -/

theorem scaled_material_far_of_fractional (pos : Position)
    (hfrac : ¬ ∃ k : Int, specMaterial pos = (k : ℚ)) (j : Int) :
    (104 / 5 : ℚ) ≤ |specMaterial pos * 208 - 208 * (j : ℚ)| := by
  have hz : material10 pos - 10 * j ≠ 0 := by
    intro h0
    apply hfrac
    refine ⟨j, ?_⟩
    have h1 : material10 pos = 10 * j := by omega
    rw [specMaterial_eq, h1]
    push_cast
    ring
  have h1 : (1 : Int) ≤ |material10 pos - 10 * j| := Int.one_le_abs hz
  have h2 : (1 : ℚ) ≤ |((material10 pos - 10 * j : Int) : ℚ)| := by
    rw [← Int.cast_abs]
    exact_mod_cast h1
  have h3 : specMaterial pos * 208 - 208 * (j : ℚ)
      = (104 / 5 : ℚ) * ((material10 pos - 10 * j : Int) : ℚ) := by
    rw [specMaterial_eq]
    push_cast
    ring
  rw [h3, abs_mul, abs_of_pos (by norm_num : (0 : ℚ) < 104 / 5)]
  nlinarith

/-! ## The claims -/

/-- C2: antisymmetry under a flip of the side to move.  For a position not in check with White
to move, the position that differs only in having Black to move evaluates to the negated
score; in particular truncation commutes with negation also for fractional material. -/
theorem evaluate_flip_side_neg (PawnValueEg : Value) (pos : Position)
    (hc : pos.checkers = 0) (hw : pos.side_to_move = Color.WHITE) :
    ∃ v : Value, Eval.evaluate PawnValueEg pos = some v
      ∧ Eval.evaluate PawnValueEg { pos with side_to_move := Color.BLACK } = some (-v) :=
  ⟨_, evaluate_white PawnValueEg pos hc hw,
    evaluate_black PawnValueEg { pos with side_to_move := Color.BLACK } hc rfl⟩

/-- Witness of C2: three pawns against a knight (material 1/10), unit 208, counter 0. -/
theorem evaluate_flip_side_neg_witness :
    (pawnsForKnight Color.WHITE 0).checkers = 0
      ∧ (pawnsForKnight Color.WHITE 0).side_to_move = Color.WHITE
      ∧ ∃ v : Value, Eval.evaluate 208 (pawnsForKnight Color.WHITE 0) = some v
          ∧ Eval.evaluate 208 { pawnsForKnight Color.WHITE 0 with side_to_move := Color.BLACK }
              = some (-v) :=
  ⟨rfl, rfl, evaluate_flip_side_neg 208 (pawnsForKnight Color.WHITE 0) rfl rfl⟩

/-- C3: for every node counter `c` the noise term equals `2 * (c AND 14) - 14`, is one of
`-14, -10, -6, -2, 2, 6, 10, 14`, each of which is produced by `c = 0, 2, ..., 14`
respectively; it lies in `[-14, 14]` and depends on `c AND 14` only. -/
theorem noise_eight_values (c : Nat) :
    noise c = 2 * ((c &&& 14 : Nat) : Int) - 14
      ∧ noise c ∈ [-14, -10, -6, -2, 2, 6, 10, 14]
      ∧ (noise 0 = -14 ∧ noise 2 = -10 ∧ noise 4 = -6 ∧ noise 6 = -2
          ∧ noise 8 = 2 ∧ noise 10 = 6 ∧ noise 12 = 10 ∧ noise 14 = 14)
      ∧ (-14 ≤ noise c ∧ noise c ≤ 14)
      ∧ ∀ c2 : Nat, c2 &&& 14 = c &&& 14 → noise c2 = noise c := by
  refine ⟨noise_eq c, noise_mem c, by decide, noise_bounds c, ?_⟩
  intro c2 h
  rw [noise_eq, noise_eq, h]

/-- C5: determinism and non-interference.  Two positions not in check that agree on the ten
counts of pawns, knights, bishops, rooks and queens and on the side to move, at node counters
that agree on `c AND 14`, get the same value from `evaluate`; king counts, the placement, bit
0 and the bits from 4 upward of the counter play no part. -/
theorem evaluate_deterministic (PawnValueEg : Value) (p1 p2 : Position)
    (h1 : p1.checkers = 0) (h2 : p2.checkers = 0)
    (hcount : ∀ pt ∈ [PieceType.PAWN, PieceType.KNIGHT, PieceType.BISHOP, PieceType.ROOK,
      PieceType.QUEEN], ∀ c : Color, p1.count pt c = p2.count pt c)
    (hs : p1.side_to_move = p2.side_to_move)
    (hn : p1.nodes &&& 14 = p2.nodes &&& 14) :
    ∃ v : Value, Eval.evaluate PawnValueEg p1 = some v ∧ Eval.evaluate PawnValueEg p2 = some v := by
  have hm := specMaterial_congr p1 p2 hcount
  have hnoise : specNoise p1.nodes = specNoise p2.nodes := by
    unfold specNoise
    rw [hn]
  rcases side_to_move_cases p2 with hw | hb
  · refine ⟨_, ?_, evaluate_white PawnValueEg p2 h2 hw⟩
    rw [evaluate_white PawnValueEg p1 h1 (hs.trans hw), hm, hnoise]
  · refine ⟨_, ?_, evaluate_black PawnValueEg p2 h2 hb⟩
    rw [evaluate_black PawnValueEg p1 h1 (hs.trans hb), hm, hnoise]

/-- Witness of C5: the starting material at counter 3 and a variant with other king counts,
another placement and counter 50. -/
theorem evaluate_deterministic_witness :
    (startPosition 3).checkers = 0 ∧ startPositionVariant.checkers = 0
      ∧ (∀ pt ∈ [PieceType.PAWN, PieceType.KNIGHT, PieceType.BISHOP, PieceType.ROOK,
          PieceType.QUEEN], ∀ c : Color,
            (startPosition 3).count pt c = startPositionVariant.count pt c)
      ∧ (startPosition 3).side_to_move = startPositionVariant.side_to_move
      ∧ (startPosition 3).nodes &&& 14 = startPositionVariant.nodes &&& 14
      ∧ ∃ v : Value, Eval.evaluate 208 (startPosition 3) = some v
          ∧ Eval.evaluate 208 startPositionVariant = some v :=
  have hcount : ∀ pt ∈ [PieceType.PAWN, PieceType.KNIGHT, PieceType.BISHOP, PieceType.ROOK,
      PieceType.QUEEN], ∀ c : Color,
        (startPosition 3).count pt c = startPositionVariant.count pt c := by
    intro pt hpt c
    cases pt <;> first | rfl | simp at hpt
  ⟨rfl, rfl, hcount, rfl, by decide,
    evaluate_deterministic 208 (startPosition 3) startPositionVariant rfl rfl hcount rfl
      (by decide)⟩

/-- C6: extra queen, White to move.  On a position not in check with White to move where
White has one more queen than Black and equally many pawns, knights, bishops and rooks, at a
node counter divisible by 16, `evaluate` returns `9 * PawnValueEg - 14`. -/
theorem evaluate_extra_queen_white (PawnValueEg : Value) (pos : Position)
    (hc : pos.checkers = 0) (hw : pos.side_to_move = Color.WHITE)
    (hp : pos.count PieceType.PAWN Color.WHITE = pos.count PieceType.PAWN Color.BLACK)
    (hn : pos.count PieceType.KNIGHT Color.WHITE = pos.count PieceType.KNIGHT Color.BLACK)
    (hb : pos.count PieceType.BISHOP Color.WHITE = pos.count PieceType.BISHOP Color.BLACK)
    (hr : pos.count PieceType.ROOK Color.WHITE = pos.count PieceType.ROOK Color.BLACK)
    (hq : pos.count PieceType.QUEEN Color.WHITE = pos.count PieceType.QUEEN Color.BLACK + 1)
    (hnodes : pos.nodes % 16 = 0) :
    Eval.evaluate PawnValueEg pos = some (9 * PawnValueEg - 14) := by
  rw [evaluate_white PawnValueEg pos hc hw, specMaterial_extra_queen pos hp hn hb hr hq,
    specNoise_of_mod_16 pos.nodes hnodes, truncValue_extra_queen]

/-- Witness of C6: the starting material plus a second white queen, counter 32, unit 208. -/
theorem evaluate_extra_queen_white_witness :
    (extraQueen Color.WHITE 32).checkers = 0
      ∧ (extraQueen Color.WHITE 32).side_to_move = Color.WHITE
      ∧ (extraQueen Color.WHITE 32).nodes % 16 = 0
      ∧ Eval.evaluate 208 (extraQueen Color.WHITE 32) = some (9 * 208 - 14) :=
  ⟨rfl, rfl, rfl,
    evaluate_extra_queen_white 208 (extraQueen Color.WHITE 32) rfl rfl rfl rfl rfl rfl rfl rfl⟩

/-- C7: extra queen, Black to move.  On a position not in check with Black to move where
White has one more queen than Black and all other counts are equal, at a node counter
divisible by 16, `evaluate` returns `-(9 * PawnValueEg - 14)`, which is `14 - 9 * PawnValueEg`:
the noise is negated together with the material term. -/
theorem evaluate_extra_queen_black (PawnValueEg : Value) (pos : Position)
    (hc : pos.checkers = 0) (hs : pos.side_to_move = Color.BLACK)
    (hp : pos.count PieceType.PAWN Color.WHITE = pos.count PieceType.PAWN Color.BLACK)
    (hn : pos.count PieceType.KNIGHT Color.WHITE = pos.count PieceType.KNIGHT Color.BLACK)
    (hb : pos.count PieceType.BISHOP Color.WHITE = pos.count PieceType.BISHOP Color.BLACK)
    (hr : pos.count PieceType.ROOK Color.WHITE = pos.count PieceType.ROOK Color.BLACK)
    (hq : pos.count PieceType.QUEEN Color.WHITE = pos.count PieceType.QUEEN Color.BLACK + 1)
    (hnodes : pos.nodes % 16 = 0) :
    Eval.evaluate PawnValueEg pos = some (-(9 * PawnValueEg - 14))
      ∧ Eval.evaluate PawnValueEg pos = some (14 - 9 * PawnValueEg) := by
  have h : Eval.evaluate PawnValueEg pos = some (-(9 * PawnValueEg - 14)) := by
    rw [evaluate_black PawnValueEg pos hc hs, specMaterial_extra_queen pos hp hn hb hr hq,
      specNoise_of_mod_16 pos.nodes hnodes, truncValue_extra_queen]
  refine ⟨h, ?_⟩
  rw [h, neg_sub]

/-- Witness of C7: the starting material plus a second white queen, Black to move, counter
16, unit 208. -/
theorem evaluate_extra_queen_black_witness :
    (extraQueen Color.BLACK 16).checkers = 0
      ∧ (extraQueen Color.BLACK 16).side_to_move = Color.BLACK
      ∧ (extraQueen Color.BLACK 16).nodes % 16 = 0
      ∧ Eval.evaluate 208 (extraQueen Color.BLACK 16) = some (-(9 * 208 - 14)) :=
  ⟨rfl, rfl, rfl,
    (evaluate_extra_queen_black 208 (extraQueen Color.BLACK 16) rfl rfl rfl rfl rfl rfl rfl
      rfl).1⟩

/-- C8: balanced material.  On a position not in check where both sides have equally many
pawns, knights, bishops, rooks and queens, `evaluate` returns the noise term
`2 * (c AND 14) - 14` with White to move and its negation with Black to move, so the absolute
value of the result is at most 14. -/
theorem evaluate_balanced (PawnValueEg : Value) (pos : Position) (hc : pos.checkers = 0)
    (hp : pos.count PieceType.PAWN Color.WHITE = pos.count PieceType.PAWN Color.BLACK)
    (hn : pos.count PieceType.KNIGHT Color.WHITE = pos.count PieceType.KNIGHT Color.BLACK)
    (hb : pos.count PieceType.BISHOP Color.WHITE = pos.count PieceType.BISHOP Color.BLACK)
    (hr : pos.count PieceType.ROOK Color.WHITE = pos.count PieceType.ROOK Color.BLACK)
    (hq : pos.count PieceType.QUEEN Color.WHITE = pos.count PieceType.QUEEN Color.BLACK) :
    ∃ v : Value, Eval.evaluate PawnValueEg pos = some v
      ∧ v = (if pos.side_to_move = Color.WHITE then 2 * ((pos.nodes &&& 14 : Nat) : Int) - 14
          else -(2 * ((pos.nodes &&& 14 : Nat) : Int) - 14))
      ∧ |v| ≤ 14 := by
  have hbd := specNoise_bounds pos.nodes
  rcases side_to_move_cases pos with hw | hs
  · refine ⟨specNoise pos.nodes, ?_, ?_, abs_le.mpr hbd⟩
    · rw [evaluate_white PawnValueEg pos hc hw, specMaterial_balanced pos hp hn hb hr hq,
        truncValue_balanced]
    · rw [if_pos hw]
      rfl
  · have hw : ¬ pos.side_to_move = Color.WHITE := by rw [hs]; decide
    refine ⟨-specNoise pos.nodes, ?_, ?_, ?_⟩
    · rw [evaluate_black PawnValueEg pos hc hs, specMaterial_balanced pos hp hn hb hr hq,
        truncValue_balanced]
    · rw [if_neg hw]
      rfl
    · rw [abs_neg]
      exact abs_le.mpr hbd

/-- Witness of C8: the chess starting position (8 pawns, 2 knights, 2 bishops, 2 rooks and a
queen per side) at counter 0, unit 208. -/
theorem evaluate_balanced_witness :
    (startPosition 0).checkers = 0
      ∧ ∃ v : Value, Eval.evaluate 208 (startPosition 0) = some v
          ∧ v = (if (startPosition 0).side_to_move = Color.WHITE
              then 2 * (((startPosition 0).nodes &&& 14 : Nat) : Int) - 14
              else -(2 * (((startPosition 0).nodes &&& 14 : Nat) : Int) - 14))
          ∧ |v| ≤ 14 :=
  ⟨rfl, evaluate_balanced 208 (startPosition 0) rfl rfl rfl rfl rfl rfl⟩

/-- C9: orientation, with the engine unit `PawnValueEg = 208`.  On a position not in check,
if the material balance seen from the side to move (`m` with White to move, `-m` with Black
to move) is strictly positive, `evaluate` returns a strictly positive value, and if it is
strictly negative, a strictly negative value.  The noise never reverses the sign of a
material imbalance. -/
theorem evaluate_sign_of_material (pos : Position) (hc : pos.checkers = 0) :
    (0 < (if pos.side_to_move = Color.WHITE then specMaterial pos else -specMaterial pos) →
        ∃ v : Value, Eval.evaluate 208 pos = some v ∧ 0 < v)
      ∧ ((if pos.side_to_move = Color.WHITE then specMaterial pos else -specMaterial pos) < 0 →
        ∃ v : Value, Eval.evaluate 208 pos = some v ∧ v < 0) := by
  have hbd := specNoise_bounds pos.nodes
  have hn1 : (-14 : ℚ) ≤ ((specNoise pos.nodes : Int) : ℚ) := by exact_mod_cast hbd.1
  have hn2 : ((specNoise pos.nodes : Int) : ℚ) ≤ 14 := by exact_mod_cast hbd.2
  have hP15 : (10 : Int) * 15 ≤ 208 := by decide
  have hpos : 0 < specMaterial pos →
      0 < truncValue (specMaterial pos * ((208 : Value) : ℚ) + ((specNoise pos.nodes : Int) : ℚ)) := by
    intro h
    have hK := (specMaterial_pos_iff pos).mp h
    have hx := scaled_material_ge pos 208 15 (by decide) hP15 hK
    push_cast at hx
    exact truncValue_pos (by push_cast; linarith)
  have hneg : specMaterial pos < 0 →
      truncValue (specMaterial pos * ((208 : Value) : ℚ) + ((specNoise pos.nodes : Int) : ℚ)) < 0 := by
    intro h
    have hK := (specMaterial_neg_iff pos).mp h
    have hx := scaled_material_le pos 208 15 (by decide) hP15 hK
    push_cast at hx
    exact truncValue_neg_of_le (by push_cast; linarith)
  rcases side_to_move_cases pos with hw | hs
  · rw [if_pos hw]
    exact ⟨fun h => ⟨_, evaluate_white 208 pos hc hw, hpos h⟩,
      fun h => ⟨_, evaluate_white 208 pos hc hw, hneg h⟩⟩
  · have hw : ¬ pos.side_to_move = Color.WHITE := by rw [hs]; decide
    rw [if_neg hw]
    constructor
    · intro h
      exact ⟨_, evaluate_black 208 pos hc hs,
        Int.neg_pos.mpr (hneg (neg_pos.mp h))⟩
    · intro h
      exact ⟨_, evaluate_black 208 pos hc hs,
        Int.neg_neg_of_pos (hpos (neg_neg_iff_pos.mp h))⟩

/-- Witness of C9: three pawns against a knight (imbalance 1/10), Black to move, unit 208,
counter 15, where the noise is 14 in White's frame. -/
theorem evaluate_sign_of_material_witness :
    (pawnsForKnight Color.BLACK 15).checkers = 0
      ∧ ((if (pawnsForKnight Color.BLACK 15).side_to_move = Color.WHITE
            then specMaterial (pawnsForKnight Color.BLACK 15)
            else -specMaterial (pawnsForKnight Color.BLACK 15)) < 0 →
          ∃ v : Value, Eval.evaluate 208 (pawnsForKnight Color.BLACK 15) = some v ∧ v < 0) :=
  ⟨rfl, (evaluate_sign_of_material (pawnsForKnight Color.BLACK 15) rfl).2⟩

/-- C10: on a position whose side to move is in check, `trace` returns the string
`Total evaluation: none (in check)` with no trailing newline, whatever the piece counts, the
side to move, the node counter and the formatter; the evaluator, whose assertion fails on
such a position, takes no part in it. -/
theorem trace_in_check (fmt : Double → String) (PawnValueEg : Value) (pos : Position)
    (hc : pos.checkers ≠ 0) :
    Eval.trace fmt PawnValueEg pos = some "Total evaluation: none (in check)"
      ∧ Evaluation.value PawnValueEg pos = none := by
  constructor
  · unfold Eval.trace
    rw [if_pos hc]
  · unfold Evaluation.value
    rw [if_pos hc]

/-- Witness of C10: the starting material with a checker on square 12. -/
theorem trace_in_check_witness :
    checkedPosition.checkers ≠ 0
      ∧ Eval.trace (fun _ => "") 208 checkedPosition = some "Total evaluation: none (in check)"
      ∧ Evaluation.value 208 checkedPosition = none :=
  ⟨by decide, trace_in_check (fun _ => "") 208 checkedPosition (by decide)⟩

/-- C12: with the assertion modelled as an error result, `evaluate` fails exactly when the
side to move is in check, and returns a value exactly when it is not; piece counts, side to
move and node counter open no other failure path. -/
theorem evaluate_fails_iff_in_check (PawnValueEg : Value) (pos : Position) :
    (Eval.evaluate PawnValueEg pos = none ↔ pos.checkers ≠ 0)
      ∧ ((∃ v : Value, Eval.evaluate PawnValueEg pos = some v) ↔ pos.checkers = 0) := by
  by_cases hc : pos.checkers = 0
  · have h := value_of_not_checked PawnValueEg pos hc
    unfold Eval.evaluate
    rw [h]
    exact ⟨⟨fun h0 => absurd h0 (Option.some_ne_none _), fun h0 => absurd hc h0⟩,
      ⟨fun _ => hc, fun _ => ⟨_, rfl⟩⟩⟩
  · have h : Evaluation.value PawnValueEg pos = none := by
      unfold Evaluation.value
      rw [if_pos hc]
    unfold Eval.evaluate
    rw [h]
    refine ⟨⟨fun _ => hc, fun _ => rfl⟩, ⟨?_, fun h0 => absurd h0 hc⟩⟩
    rintro ⟨v, hv⟩
    exact absurd hv (Option.some_ne_none v).symm

/-- C13: `trace` never violates the precondition of the evaluator.  It returns a string for
every position, in check or not; it is its own body run with `Evaluation::value` as the
callee, and its result is the same with any callee that agrees with `Evaluation::value` on
the positions that are not in check, so the callee is consulted on such positions only, where
its assertion holds. -/
theorem trace_respects_precondition (fmt : Double → String) (PawnValueEg : Value)
    (pos : Position) :
    (∃ s : String, Eval.trace fmt PawnValueEg pos = some s)
      ∧ Eval.trace fmt PawnValueEg pos
          = Eval.traceWith (Evaluation.value PawnValueEg) fmt PawnValueEg pos
      ∧ (∀ value2 : Position → Option Value,
          (∀ p : Position, p.checkers = 0 → value2 p = Evaluation.value PawnValueEg p) →
            Eval.traceWith value2 fmt PawnValueEg pos = Eval.trace fmt PawnValueEg pos)
      ∧ (pos.checkers = 0 → ∃ v : Value, Evaluation.value PawnValueEg pos = some v) := by
  refine ⟨?_, rfl, ?_, ?_⟩
  · by_cases hc : pos.checkers = 0
    · unfold Eval.trace
      rw [if_neg (not_not.mpr hc), value_of_not_checked PawnValueEg pos hc]
      exact ⟨_, rfl⟩
    · unfold Eval.trace
      rw [if_pos hc]
      exact ⟨_, rfl⟩
  · intro value2 h
    by_cases hc : pos.checkers = 0
    · unfold Eval.traceWith Eval.trace
      rw [if_neg (not_not.mpr hc), if_neg (not_not.mpr hc), h pos hc]
    · unfold Eval.traceWith Eval.trace
      rw [if_pos hc, if_pos hc]
  · intro hc
    exact ⟨_, value_of_not_checked PawnValueEg pos hc⟩

/-- C14: the wrap-around in the noise computation is harmless.  For every node counter `c`
the expression `2 * (nodes & 14) - 14`, evaluated in unsigned 64-bit arithmetic, is
`2 ^ 64 - 14 + 2 * (c AND 14)` when `c AND 14 < 7` and `2 * (c AND 14) - 14` otherwise, and
its conversion to the 32-bit signed `Value` is the integer `2 * (c AND 14) - 14`, the negative
values `-14, -10, -6, -2` included. -/
theorem noise_wrap_harmless (c : Nat) :
    noise c = toValue (noiseUnsigned c)
      ∧ toValue (noiseUnsigned c) = 2 * ((c &&& 14 : Nat) : Int) - 14
      ∧ (c &&& 14 < 7 → noiseUnsigned c = 2 ^ 64 - 14 + 2 * (c &&& 14))
      ∧ (7 ≤ c &&& 14 → noiseUnsigned c = 2 * (c &&& 14) - 14)
      ∧ (toValue (noiseUnsigned 0) = -14 ∧ toValue (noiseUnsigned 2) = -10
          ∧ toValue (noiseUnsigned 4) = -6 ∧ toValue (noiseUnsigned 6) = -2) := by
  refine ⟨rfl, ?_, (noiseUnsigned_cases c).1, (noiseUnsigned_cases c).2, by decide⟩
  rw [← noise_eq_toValue, noise_eq]

/-- C16: `evaluate` is not invariant under colour mirroring.  For a position not in check
with equally many knights on both sides, the position with the counts of the two colours and
the side to move exchanged (same counter `c`) gets a value that differs from the original one
by exactly `2 * |2 * (c AND 14) - 14|`, which is 4, 12, 20 or 28; the two are never equal. -/
theorem evaluate_mirror_differs (PawnValueEg : Value) (pos : Position) (hc : pos.checkers = 0)
    (hn : pos.count PieceType.KNIGHT Color.WHITE = pos.count PieceType.KNIGHT Color.BLACK) :
    ∃ v v2 : Value, Eval.evaluate PawnValueEg pos = some v
      ∧ Eval.evaluate PawnValueEg (mirror pos) = some v2
      ∧ |v - v2| = 2 * |2 * ((pos.nodes &&& 14 : Nat) : Int) - 14|
      ∧ |v - v2| ∈ [4, 12, 20, (28 : Int)]
      ∧ v ≠ v2 := by
  obtain ⟨M, hM⟩ := specMaterial_int_of_equal_knights pos hn
  have hmir : specMaterial (mirror pos) = -(M : ℚ) := by rw [specMaterial_mirror, hM]
  have hnodes : (mirror pos).nodes = pos.nodes := rfl
  have hmem := twice_abs_specNoise_mem (specNoise pos.nodes) (specNoise_mem pos.nodes)
  have htr := truncValue_int_combination M PawnValueEg (specNoise pos.nodes)
  have hkey : ∀ v v2 : Value, |v - v2| = 2 * |specNoise pos.nodes| →
      |v - v2| = 2 * |2 * ((pos.nodes &&& 14 : Nat) : Int) - 14|
        ∧ |v - v2| ∈ [4, 12, 20, (28 : Int)] ∧ v ≠ v2 := by
    intro v v2 h
    refine ⟨h, h ▸ hmem.1, ?_⟩
    intro hv
    rw [hv, sub_self, abs_zero] at h
    have h3 : |specNoise pos.nodes| = 0 := by
      have h4 : (2 : Int) * |specNoise pos.nodes| = 2 * 0 := by rw [← h]; rfl
      exact Int.eq_of_mul_eq_mul_left (by decide) h4
    exact hmem.2 (abs_eq_zero.mp h3)
  rcases side_to_move_cases pos with hw | hs
  · have e1 := evaluate_white PawnValueEg pos hc hw
    have e2 := evaluate_black PawnValueEg (mirror pos) hc
      (by show pos.side_to_move.opposite = Color.BLACK; rw [hw]; rfl)
    rw [hM, htr.1] at e1
    rw [hmir, hnodes, htr.2] at e2
    refine ⟨_, _, e1, e2, hkey _ _ ?_⟩
    have h5 : M * PawnValueEg + specNoise pos.nodes - -(-(M * PawnValueEg) + specNoise pos.nodes)
        = 2 * specNoise pos.nodes := by ring
    rw [h5, abs_mul]
    rfl
  · have e1 := evaluate_black PawnValueEg pos hc hs
    have e2 := evaluate_white PawnValueEg (mirror pos) hc
      (by show pos.side_to_move.opposite = Color.WHITE; rw [hs]; rfl)
    rw [hM, htr.1] at e1
    rw [hmir, hnodes, htr.2] at e2
    refine ⟨_, _, e1, e2, hkey _ _ ?_⟩
    have h5 : -(M * PawnValueEg + specNoise pos.nodes) - (-(M * PawnValueEg) + specNoise pos.nodes)
        = -2 * specNoise pos.nodes := by ring
    rw [h5, abs_mul]
    rfl

/-- Witness of C16: the starting material plus a second white queen, White to move, counter
5, unit 208. -/
theorem evaluate_mirror_differs_witness :
    (extraQueen Color.WHITE 5).checkers = 0
      ∧ (extraQueen Color.WHITE 5).count PieceType.KNIGHT Color.WHITE
          = (extraQueen Color.WHITE 5).count PieceType.KNIGHT Color.BLACK
      ∧ ∃ v v2 : Value, Eval.evaluate 208 (extraQueen Color.WHITE 5) = some v
          ∧ Eval.evaluate 208 (mirror (extraQueen Color.WHITE 5)) = some v2
          ∧ |v - v2| = 2 * |2 * (((extraQueen Color.WHITE 5).nodes &&& 14 : Nat) : Int) - 14|
          ∧ |v - v2| ∈ [4, 12, 20, (28 : Int)]
          ∧ v ≠ v2 :=
  ⟨rfl, rfl, evaluate_mirror_differs 208 (extraQueen Color.WHITE 5) rfl rfl⟩

/-- C17: with the engine unit `PawnValueEg = 208`, `evaluate` never returns 0 on a position
that is not in check, for all integer piece counts, either side to move and every node
counter.  A material balance that is not an integer, scaled by 208, stays at distance at least
20.8 from every multiple of 208. -/
theorem evaluate_ne_zero (pos : Position) (hc : pos.checkers = 0) :
    (∃ v : Value, Eval.evaluate 208 pos = some v ∧ v ≠ 0)
      ∧ ((¬ ∃ k : Int, specMaterial pos = (k : ℚ)) →
          ∀ j : Int, (104 / 5 : ℚ) ≤ |specMaterial pos * 208 - 208 * (j : ℚ)|) := by
  refine ⟨?_, scaled_material_far_of_fractional pos⟩
  have hbd := specNoise_bounds pos.nodes
  have hn1 : (-14 : ℚ) ≤ ((specNoise pos.nodes : Int) : ℚ) := by exact_mod_cast hbd.1
  have hn2 : ((specNoise pos.nodes : Int) : ℚ) ≤ 14 := by exact_mod_cast hbd.2
  have hne : truncValue (specMaterial pos * ((208 : Value) : ℚ)
      + ((specNoise pos.nodes : Int) : ℚ)) ≠ 0 := by
    rcases lt_trichotomy (material10 pos) 0 with hK | hK | hK
    · have hx := scaled_material_le pos 208 15 (by decide) (by decide) (by omega)
      push_cast at hx
      have hlt := truncValue_neg_of_le
        (show specMaterial pos * ((208 : Value) : ℚ) + ((specNoise pos.nodes : Int) : ℚ) ≤ -1 by
          push_cast
          linarith)
      exact ne_of_lt hlt
    · have h0 : specMaterial pos * ((208 : Value) : ℚ) + ((specNoise pos.nodes : Int) : ℚ)
          = ((specNoise pos.nodes : Int) : ℚ) := by
        rw [specMaterial_eq, hK]
        simp
      rw [h0, truncValue_intCast]
      exact (twice_abs_specNoise_mem _ (specNoise_mem pos.nodes)).2
    · have hx := scaled_material_ge pos 208 15 (by decide) (by decide) (by omega)
      push_cast at hx
      have hlt := truncValue_pos
        (show 1 ≤ specMaterial pos * ((208 : Value) : ℚ) + ((specNoise pos.nodes : Int) : ℚ) by
          push_cast
          linarith)
      exact (ne_of_lt hlt).symm
  rcases side_to_move_cases pos with hw | hs
  · exact ⟨_, evaluate_white 208 pos hc hw, hne⟩
  · exact ⟨_, evaluate_black 208 pos hc hs, neg_ne_zero.mpr hne⟩

/-- Witness of C17: three pawns against a knight, Black to move, counter 15. -/
theorem evaluate_ne_zero_witness :
    (pawnsForKnight Color.BLACK 15).checkers = 0
      ∧ ∃ v : Value, Eval.evaluate 208 (pawnsForKnight Color.BLACK 15) = some v ∧ v ≠ 0 :=
  ⟨rfl, (evaluate_ne_zero (pawnsForKnight Color.BLACK 15) rfl).1⟩

end Stockfish
